import Mathlib

/-!
Shallow embedding of `grader.py`, the single source file of the essay-grading
assistant.  Pure string manipulation (sanitization, title/body splitting,
stream accumulation) is translated directly; filesystem facts (existence,
size) are carried as fields of `FileInfo`; the two streamed model calls are
modelled by the list of content deltas the network delivers plus an optional
mid-stream exception; the JSON history file is modelled at the level of the
parsed JSON value (the text (de)serialization performed by the `json` stdlib
collaborator is value-preserving).
-/

/-- Python `str.strip()` whitespace test, restricted to the ASCII whitespace
characters Python strips. -/
def pyIsSpace (c : Char) : Bool :=
  c = ' ' || c = '\t' || c = '\n' || c = '\x0d' || c = '\x0b' || c = '\x0c'

/-- Python `str.strip()`: drop leading and trailing whitespace. -/
def pyStrip (s : String) : String :=
  ⟨((s.data.dropWhile pyIsSpace).reverse.dropWhile pyIsSpace).reverse⟩

/-- The characters removed by `sanitize_filename`'s regex `[\\/*?:"<>|]`. -/
def forbiddenChar (c : Char) : Bool :=
  c = '\\' || c = '/' || c = '*' || c = '?' || c = ':' || c = '"' || c = '<' || c = '>' || c = '|'

/-- `sanitize_filename` (grader.py line 62): strip the title, delete every
forbidden filename character, keep the first 50 characters. -/
def sanitize_filename (title : String) : String :=
  ⟨((pyStrip title).data.filter (fun c => !forbiddenChar c)).take 50⟩

/-- A file of an upload batch: its path string together with the two
filesystem facts `validate_image_files` consults (existence and size in
bytes). -/
structure FileInfo where
  path : String
  present : Bool
  size : Nat
deriving DecidableEq

/-- `pathlib.Path(...).name`: the final path component (paths are assumed
normalized, without a trailing slash). -/
def pyName (p : String) : String :=
  ⟨(p.data.reverse.takeWhile (fun c => c ≠ '/')).reverse⟩

/-- `pathlib.Path(...).suffix`: the extension of the final component,
including the dot; empty when the name has no dot, starts with its only dot,
or ends with a dot. -/
def pySuffix (p : String) : String :=
  let n := (pyName p).data
  let after := (n.reverse.takeWhile (fun c => c ≠ '.')).reverse
  if after.length = n.length then ""
  else if after.length = 0 then ""
  else if n.length - after.length - 1 = 0 then ""
  else ⟨'.' :: after⟩

/-- Python `str.lower()`: lowercase character by character (the extension
characters compared here are ASCII). -/
def pyLower (s : String) : String :=
  ⟨s.data.map Char.toLower⟩

/-- `Config.ALLOWED_EXTENSIONS`. -/
def ALLOWED_EXTENSIONS : List String := [".jpg", ".jpeg", ".png"]

/-- `Config.MAX_FILE_SIZE_MB * 1024 * 1024`. -/
def MAX_FILE_SIZE : Nat := 5 * 1024 * 1024

/-- The loop body of `validate_image_files` for one file: the first failing
check produces its error message, in source order (existence, then extension,
then size). -/
def fileCheck (f : FileInfo) : Option String :=
  if f.present = false then some ("文件不存在: " ++ f.path)
  else if pyLower (pySuffix f.path) ∉ ALLOWED_EXTENSIONS then
    some ("不支持的文件类型: " ++ pySuffix f.path)
  else if f.size > MAX_FILE_SIZE then
    some ("文件过大: " ++ pyName f.path ++ " (" ++ toString (f.size / 1024 / 1024) ++ "MB)")
  else none

/-- The `for` loop of `validate_image_files`: the first failure aborts. -/
def checkFiles : List FileInfo → Except String Unit
  | [] => .ok ()
  | f :: fs =>
    match fileCheck f with
    | some e => .error e
    | none => checkFiles fs

/-- `validate_image_files` (grader.py line 76): raising `ValueError(msg)` is
modelled as returning `.error msg`. -/
def validate_image_files (files : List FileInfo) : Except String Unit :=
  if files.isEmpty then .error "未上传任何图片"
  else checkFiles files

/-- The accumulation loop shared by `stream_extract_text` and
`stream_rate_text`: each network chunk carries an optional content delta
(`none` models a chunk whose `delta.content` is `None`); a chunk with truthy
content is appended to the running total, which is then yielded.  Returns the
list of yielded values and the final accumulated string. -/
def stream_accumulate (acc : String) : List (Option String) → List String × String
  | [] => ([], acc)
  | none :: cs => stream_accumulate acc cs
  | some d :: cs =>
    if d = "" then stream_accumulate acc cs
    else
      let r := stream_accumulate (acc ++ d) cs
      ((acc ++ d) :: r.1, r.2)

/-- The non-empty content deltas of a chunk sequence, in order. -/
def contentDeltas : List (Option String) → List String
  | [] => []
  | none :: cs => contentDeltas cs
  | some d :: cs => if d = "" then contentDeltas cs else d :: contentDeltas cs

/-- `stream_extract_text` (grader.py line 97): the images only shape the
request payload, which is not modelled; the stream behaviour is determined by
the chunks delivered and an optional exception raised mid-stream (after the
listed chunks).  Returns the yielded snapshots and either the final
accumulated text or the propagated error. -/
def stream_extract_text (_image_paths : List String) (chunks : List (Option String))
    (midErr : Option String) : List String × Except String String :=
  let r := stream_accumulate "" chunks
  match midErr with
  | some e => (r.1, .error e)
  | none => (r.1, .ok r.2)

/-- `stream_rate_text` (grader.py line 128): first checks that the rubric
template `prompt/prompt.txt` exists, raising `FileNotFoundError` before the
chat request when it is missing; otherwise issues the streaming call and
accumulates exactly like extraction.  The first component records whether the
chat-completion request was issued. -/
def stream_rate_text (rubricPresent : Bool) (_content : String)
    (chunks : List (Option String)) (midErr : Option String) :
    Bool × List String × Except String String :=
  if rubricPresent = false then (false, [], .error "评分模板文件不存在")
  else
    let r := stream_accumulate "" chunks
    match midErr with
    | some e => (true, r.1, .error e)
    | none => (true, r.1, .ok r.2)

/-- Python `full_text.split("\n", 1)` on the character list: the part before
the first newline, and the part after it when one exists. -/
def splitFirstNewline : List Char → List Char × Option (List Char)
  | [] => ([], none)
  | c :: cs =>
    if c = '\n' then ([], some cs)
    else
      let r := splitFirstNewline cs
      (c :: r.1, r.2)

/-- The title/body split of `full_process` (grader.py lines 339-341):
`title = lines[0].strip() or "未命名作文"`,
`content = lines[1].strip() if len(lines) > 1 else ""`. -/
def split_title_body (full_text : String) : String × String :=
  let r := splitFirstNewline full_text.data
  let t := pyStrip ⟨r.1⟩
  (if t = "" then "未命名作文" else t,
   match r.2 with
   | none => ""
   | some rest => pyStrip ⟨rest⟩)

/-- Modelled from the spec (the spec's own wording of the split, for
comparison with the source's `split_title_body`): the title is the first line
trimmed, defaulting to the untitled constant when that trimmed line is
empty. -/
def spec_title (s : String) : String :=
  let t := pyStrip ⟨s.data.takeWhile (fun c => c ≠ '\n')⟩
  if t = "" then "未命名作文" else t

/-- Modelled from the spec: the body is the remainder after the first
newline, trimmed, or the empty string when the text has no second line. -/
def spec_body (s : String) : String :=
  if s.data.contains '\n' then pyStrip ⟨(s.data.dropWhile (fun c => c ≠ '\n')).tail⟩
  else ""

/-- A JSON value, as produced by Python's `json.load` (numbers restricted to
integers; the history data holds only strings, arrays and objects). -/
inductive JValue where
  | null
  | bool (b : Bool)
  | num (n : Int)
  | str (s : String)
  | arr (elems : List JValue)
  | obj (fields : List (String × JValue))

/-- One record of `history.json`, as appended by `full_process`. -/
structure HistoryEntry where
  title : String
  timestamp : String
  text_path : String
  rate_path : String
deriving DecidableEq

/-- The dict literal built by `full_process` for a new history entry. -/
def entryToJson (e : HistoryEntry) : JValue :=
  .obj [("title", .str e.title), ("timestamp", .str e.timestamp),
        ("text_path", .str e.text_path), ("rate_path", .str e.rate_path)]

/-- A history list as the JSON array `json.dump` serializes. -/
def historyToJson (h : List HistoryEntry) : JValue :=
  .arr (h.map entryToJson)

/-- Reading a history entry back out of a parsed JSON value. -/
def jsonToEntry : JValue → Option HistoryEntry
  | .obj [("title", .str t), ("timestamp", .str ts),
          ("text_path", .str tp), ("rate_path", .str rp)] => some ⟨t, ts, tp, rp⟩
  | _ => none

/-- Reading a list of history entries out of the elements of a JSON array. -/
def decodeEntries : List JValue → Option (List HistoryEntry)
  | [] => some []
  | j :: js =>
    match jsonToEntry j, decodeEntries js with
    | some e, some es => some (e :: es)
    | _, _ => none

/-- Reading a history list out of a parsed JSON value. -/
def jsonToHistory : JValue → Option (List HistoryEntry)
  | .arr js => decodeEntries js
  | _ => none

/-- The state of the `history.json` file: absent, present but unparseable
(`json.JSONDecodeError`), or holding a parseable JSON text whose parsed value
is recorded. -/
inductive HistFileState where
  | absent
  | malformed
  | stored (j : JValue)

/-- `save_history` (grader.py line 57): overwrites the file with the full
serialized list; the stdlib serializer/parser pair is value-preserving, so
the file afterwards parses to exactly the written value. -/
def save_history (history : JValue) (_s : HistFileState) : HistFileState :=
  .stored history

/-- `load_history` (grader.py line 49): the parsed contents of the file, or
`[]` when the file is absent or unparseable (the error is logged, not
raised — the function is total). -/
def load_history : HistFileState → JValue
  | .absent => .arr []
  | .malformed => .arr []
  | .stored j => j

/-- `TEXTS_DIR`. -/
def TEXTS_DIR : String := "texts"

/-- `RATES_DIR`. -/
def RATES_DIR : String := "rates"

/-- The path `safe_save` (grader.py line 66) writes to:
`directory/sanitized-filename_timestamp.txt`, where `timestamp` is the
second-resolution wall-clock stamp taken at save time. -/
def safe_save_path (directory : String) (filename : String) (timestamp : String) : String :=
  directory ++ "/" ++ sanitize_filename filename ++ "_" ++ timestamp ++ ".txt"

/-- A progress snapshot yielded by `full_process`: the dictionary update sent
to the UI, abstracted to its carried data. -/
inductive Snapshot where
  | processing
  | extracting (textSoFar : String)
  | grading (rateSoFar : String)
  | done (text_path : String) (rate_path : String) (history : List HistoryEntry)
  | error (msg : String)
deriving DecidableEq

/-- The external behaviour feeding one run of `full_process`: whether the
rubric template exists, the chunks each streamed call delivers with its
optional mid-stream exception, and the wall-clock stamps used for filenames
and the history record. -/
structure Env where
  rubricPresent : Bool
  extractChunks : List (Option String)
  extractErr : Option String
  rateChunks : List (Option String)
  rateErr : Option String
  timestamp : String
  nowMinute : String

/-- Everything one run of `full_process` does: the snapshots it yields and
the side effects it performs (text files written as (path, contents) pairs,
the history list written to `history.json` if any, and how many
chat-completion requests were issued). -/
structure RunResult where
  snapshots : List Snapshot
  savedTexts : List (String × String)
  savedRates : List (String × String)
  savedHistory : Option (List HistoryEntry)
  gatewayCalls : Nat
deriving DecidableEq

/-- `full_process` (grader.py line 318): validate, stream extraction, split,
stream grading, persist both files, append to history; any exception is
caught at the top and turned into a final error snapshot with nothing
persisted beyond what already happened. -/
def full_process (files : List FileInfo) (history : List HistoryEntry) (env : Env) : RunResult :=
  match validate_image_files files with
  | .error e => ⟨[.error e], [], [], none, 0⟩
  | .ok () =>
    let ext := stream_extract_text (files.map (·.path)) env.extractChunks env.extractErr
    match ext.2 with
    | .error e =>
      ⟨.processing :: ext.1.map .extracting ++ [.error e], [], [], none, 1⟩
    | .ok full_text =>
      let tb := split_title_body full_text
      let title := tb.1
      let content := tb.2
      let rate := stream_rate_text env.rubricPresent content env.rateChunks env.rateErr
      let calls := 1 + (if rate.1 then 1 else 0)
      match rate.2.2 with
      | .error e =>
        ⟨.processing :: ext.1.map .extracting ++ rate.2.1.map .grading ++ [.error e],
         [], [], none, calls⟩
      | .ok full_rate =>
        let text_path := safe_save_path TEXTS_DIR title env.timestamp
        let rate_path := safe_save_path RATES_DIR (title ++ "_批改") env.timestamp
        let new_entry : HistoryEntry := ⟨title, env.nowMinute, text_path, rate_path⟩
        let updated := history ++ [new_entry]
        ⟨.processing :: ext.1.map .extracting ++ rate.2.1.map .grading
           ++ [.done text_path rate_path updated],
         [(text_path, content)], [(rate_path, full_rate)], some updated, calls⟩

/-- The cumulative concatenations of a delta list starting from `acc`:
`[acc ++ d1, acc ++ d1 ++ d2, ...]`. -/
def cumFrom (acc : String) : List String → List String
  | [] => []
  | d :: ds => (acc ++ d) :: cumFrom (acc ++ d) ds

/-- Concatenation of a list of strings. -/
def strConcat : List String → String
  | [] => ""
  | d :: ds => d ++ strConcat ds

theorem length_pos_of_ne_empty (s : String) (h : s ≠ "") : 0 < s.length := by
  cases s with
  | mk l =>
    cases l with
    | nil => exact absurd rfl h
    | cons c cs => simp [String.length_mk]

theorem append_ne_empty_left (d e : String) (h : d ≠ "") : d ++ e ≠ "" := by
  intro heq
  have hlen : (d ++ e).length = 0 := by rw [heq]; exact String.length_empty
  rw [String.length_append] at hlen
  have := length_pos_of_ne_empty d h
  omega

theorem stream_accumulate_map_some (ds : List String) (h : ∀ d ∈ ds, d ≠ "") (acc : String) :
    stream_accumulate acc (ds.map some) = (cumFrom acc ds, acc ++ strConcat ds) := by
  induction ds generalizing acc with
  | nil => simp [stream_accumulate, cumFrom, strConcat, String.append_empty]
  | cons d ds ih =>
    have hd : d ≠ "" := h d (List.mem_cons_self d ds)
    have hrest : ∀ x ∈ ds, x ≠ "" := fun x hx => h x (List.mem_cons_of_mem d hx)
    simp only [List.map_cons, stream_accumulate, if_neg hd, ih hrest, cumFrom, strConcat,
      String.append_assoc]

theorem cumFrom_getElem? (ds : List String) (acc : String) (k : Nat) (hk : k < ds.length) :
    (cumFrom acc ds)[k]? = some (acc ++ strConcat (ds.take (k + 1))) := by
  induction ds generalizing acc k with
  | nil => simp at hk
  | cons d ds ih =>
    cases k with
    | zero => simp [cumFrom, strConcat, String.append_empty]
    | succ k =>
      have hk' : k < ds.length := by simpa using hk
      simp only [cumFrom, List.getElem?_cons_succ, ih (acc ++ d) k hk', List.take_succ_cons,
        strConcat, String.append_assoc]

theorem cumFrom_getLast? (ds : List String) (acc : String) (h : ds ≠ []) :
    (cumFrom acc ds).getLast? = some (acc ++ strConcat ds) := by
  induction ds generalizing acc with
  | nil => exact absurd rfl h
  | cons d ds ih =>
    cases ds with
    | nil => simp [cumFrom, strConcat, String.append_empty]
    | cons e ds' =>
      show ((acc ++ d) :: cumFrom (acc ++ d) (e :: ds')).getLast? = _
      have hcons : cumFrom (acc ++ d) (e :: ds') = ((acc ++ d) ++ e) :: cumFrom ((acc ++ d) ++ e) ds' := rfl
      rw [hcons, List.getLast?_cons_cons, ← hcons, ih (acc ++ d) (by simp)]
      simp [strConcat, String.append_assoc]

/-- C1: for a streamed call (extraction or grading) whose network chunks
deliver the content deltas `d1, ..., dn` (all non-empty, since a falsy delta
is skipped without yielding), the k-th yielded value is `d1 ++ ... ++ dk`,
the final yielded value is the full concatenation, and the accumulated
response returned by the generator is the full concatenation as well. -/
theorem cumulative_yield_contract (ds : List String) (h : ∀ d ∈ ds, d ≠ "")
    (paths : List String) (content : String) :
    (∀ k, k < ds.length →
      (stream_extract_text paths (ds.map some) none).1[k]? = some (strConcat (ds.take (k + 1))) ∧
      (stream_rate_text true content (ds.map some) none).2.1[k]? = some (strConcat (ds.take (k + 1)))) ∧
    (ds ≠ [] →
      (stream_extract_text paths (ds.map some) none).1.getLast? = some (strConcat ds) ∧
      (stream_rate_text true content (ds.map some) none).2.1.getLast? = some (strConcat ds)) ∧
    (stream_extract_text paths (ds.map some) none).2 = .ok (strConcat ds) ∧
    (stream_rate_text true content (ds.map some) none).2.2 = .ok (strConcat ds) := by
  have hacc := stream_accumulate_map_some ds h ""
  have hy : (stream_extract_text paths (ds.map some) none).1 = cumFrom "" ds := by
    simp [stream_extract_text, hacc]
  have hy' : (stream_rate_text true content (ds.map some) none).2.1 = cumFrom "" ds := by
    simp [stream_rate_text, hacc]
  refine ⟨fun k hk => ?_, fun hne => ?_, ?_, ?_⟩
  · rw [hy, hy', cumFrom_getElem? ds "" k hk, String.empty_append]
    exact ⟨rfl, rfl⟩
  · rw [hy, hy', cumFrom_getLast? ds "" hne, String.empty_append]
    exact ⟨rfl, rfl⟩
  · simp [stream_extract_text, hacc, String.empty_append]
  · simp [stream_rate_text, hacc, String.empty_append]

theorem cumulative_yield_contract_witness :
    (stream_extract_text [] (["ab", "c"].map some) none).1[1]? = some (strConcat ["ab", "c"]) :=
  ((cumulative_yield_contract ["ab", "c"] (by decide) [] "").1 1 (by decide)).1

/-- One yield strictly extends another: the later one is the earlier one with
a non-empty string appended (hence the earlier is a proper prefix and the
length strictly grows). -/
def strictExtension (a b : String) : Prop :=
  ∃ d, d ≠ "" ∧ b = a ++ d ∧ a.length < b.length

theorem yields_are_extensions (cs : List (Option String)) (acc : String) :
    ∀ y ∈ (stream_accumulate acc cs).1, ∃ d, d ≠ "" ∧ y = acc ++ d := by
  induction cs generalizing acc with
  | nil => simp [stream_accumulate]
  | cons c cs ih =>
    cases c with
    | none => simpa [stream_accumulate] using ih acc
    | some d =>
      by_cases hd : d = ""
      · simpa [stream_accumulate, hd] using ih acc
      · intro y hy
        simp only [stream_accumulate, if_neg hd, List.mem_cons] at hy
        rcases hy with rfl | hy
        · exact ⟨d, hd, rfl⟩
        · obtain ⟨e, he, rfl⟩ := ih (acc ++ d) y hy
          exact ⟨d ++ e, append_ne_empty_left d e hd, String.append_assoc acc d e⟩

theorem yields_pairwise (cs : List (Option String)) (acc : String) :
    ((stream_accumulate acc cs).1).Pairwise strictExtension := by
  induction cs generalizing acc with
  | nil => simp [stream_accumulate]
  | cons c cs ih =>
    cases c with
    | none => simpa [stream_accumulate] using ih acc
    | some d =>
      by_cases hd : d = ""
      · simpa [stream_accumulate, hd] using ih acc
      · simp only [stream_accumulate, if_neg hd]
        refine List.Pairwise.cons (fun y hy => ?_) (ih (acc ++ d))
        obtain ⟨e, he, rfl⟩ := yields_are_extensions cs (acc ++ d) y hy
        refine ⟨e, he, rfl, ?_⟩
        rw [String.length_append (acc ++ d) e]
        have := length_pos_of_ne_empty e he
        omega

theorem yields_length_eq (cs : List (Option String)) (acc : String) :
    (stream_accumulate acc cs).1.length = (contentDeltas cs).length := by
  induction cs generalizing acc with
  | nil => rfl
  | cons c cs ih =>
    cases c with
    | none => simpa [stream_accumulate, contentDeltas] using ih acc
    | some d =>
      by_cases hd : d = ""
      · simpa [stream_accumulate, contentDeltas, hd] using ih acc
      · simp [stream_accumulate, contentDeltas, hd, ih (acc ++ d)]

/-- C10: for both streaming generators, each yielded value is the previous
one with a non-empty string appended, so the yields strictly grow and every
earlier yield is a proper prefix of every later one; chunks whose content
delta is absent or empty produce no yield (the yield count equals the count
of non-empty content deltas). -/
theorem streamed_yields_strictly_grow (paths : List String) (content : String)
    (chunks : List (Option String)) (midErr : Option String) :
    ((stream_extract_text paths chunks midErr).1.Pairwise strictExtension) ∧
    ((stream_extract_text paths chunks midErr).1.length = (contentDeltas chunks).length) ∧
    ((stream_rate_text true content chunks midErr).2.1.Pairwise strictExtension) ∧
    ((stream_rate_text true content chunks midErr).2.1.length = (contentDeltas chunks).length) := by
  have h1 : (stream_extract_text paths chunks midErr).1 = (stream_accumulate "" chunks).1 := by
    cases midErr <;> rfl
  have h2 : (stream_rate_text true content chunks midErr).2.1 = (stream_accumulate "" chunks).1 := by
    cases midErr <;> rfl
  rw [h1, h2]
  exact ⟨yields_pairwise chunks "", yields_length_eq chunks "",
         yields_pairwise chunks "", yields_length_eq chunks ""⟩

theorem splitFirstNewline_eq (l : List Char) :
    splitFirstNewline l =
      (l.takeWhile (fun c => c ≠ '\n'),
       if l.contains '\n' then some ((l.dropWhile (fun c => c ≠ '\n')).tail) else none) := by
  induction l with
  | nil => rfl
  | cons c cs ih =>
    by_cases hc : c = '\n'
    · subst hc
      simp [splitFirstNewline, List.takeWhile_cons, List.dropWhile_cons]
    · simp [splitFirstNewline, hc, List.takeWhile_cons, List.dropWhile_cons, ih,
        Ne.symm hc]

/-- C2: splitting the extracted text yields the first line trimmed as the
title (falling back to the untitled default `未命名作文` when the trimmed
first line is empty) and the trimmed remainder after the first newline as the
body (empty when there is no second line); in particular the two example
inputs of the spec split as stated. -/
theorem title_body_split_spec :
    (∀ s, split_title_body s = (spec_title s, spec_body s)) ∧
    split_title_body "My Title\nLine1\nLine2" = ("My Title", "Line1\nLine2") ∧
    split_title_body "OnlyTitle" = ("OnlyTitle", "") := by
  refine ⟨fun s => ?_, rfl, rfl⟩
  unfold split_title_body spec_title spec_body
  rw [splitFirstNewline_eq]
  by_cases h : '\n' ∈ s.data
  · simp [h]
  · simp [h]

/-- C5: for every title, the sanitized filename stem contains none of the
forbidden characters `\ / * ? : " < > |` and is at most 50 characters
long. -/
theorem sanitize_filename_safe (title : String) :
    (∀ c ∈ (sanitize_filename title).data, forbiddenChar c = false) ∧
    (sanitize_filename title).length ≤ 50 := by
  constructor
  · intro c hc
    have hc' : c ∈ (pyStrip title).data.filter (fun c => !forbiddenChar c) :=
      List.mem_of_mem_take hc
    have := (List.mem_filter.mp hc').2
    simpa using this
  · simp only [sanitize_filename, String.length_mk]
    exact List.length_take_le 50 _

theorem checkFiles_ok_iff (fs : List FileInfo) :
    checkFiles fs = .ok () ↔ ∀ f ∈ fs, fileCheck f = none := by
  induction fs with
  | nil => simp [checkFiles]
  | cons f fs ih =>
    cases hf : fileCheck f with
    | some e => simp [checkFiles, hf]
    | none => simp [checkFiles, hf, ih]

theorem checkFiles_first_error (pre : List FileInfo) (f : FileInfo) (post : List FileInfo)
    (e : String) (hpre : ∀ g ∈ pre, fileCheck g = none) (hf : fileCheck f = some e) :
    checkFiles (pre ++ f :: post) = .error e := by
  induction pre with
  | nil => simp [checkFiles, hf]
  | cons g pre ih =>
    have hg := hpre g (List.mem_cons_self g pre)
    simpa [checkFiles, hg] using ih fun x hx => hpre x (List.mem_cons_of_mem g hx)

/-- C3 (amended): validation fails exactly when the batch is empty (with the
no-images message), some file is absent, has an extension outside the
case-insensitively compared allowed set, or exceeds 5 MB; the first failing
file (and within it the first failing check) determines the error; the
missing-file message carries the file's path and the oversize message its
name, while the unsupported-extension message carries only the offending
extension; a batch with none of these defects always validates. -/
theorem validate_image_files_characterization :
    (validate_image_files [] = .error "未上传任何图片") ∧
    (∀ f, fileCheck f = none ↔
      f.present = true ∧ pyLower (pySuffix f.path) ∈ ALLOWED_EXTENSIONS ∧
        f.size ≤ MAX_FILE_SIZE) ∧
    (∀ fs, validate_image_files fs = .ok () ↔ fs ≠ [] ∧ ∀ f ∈ fs, fileCheck f = none) ∧
    (∀ pre f post e, (∀ g ∈ pre, fileCheck g = none) → fileCheck f = some e →
      validate_image_files (pre ++ f :: post) = .error e) ∧
    (∀ f, f.present = false → fileCheck f = some ("文件不存在: " ++ f.path)) ∧
    (∀ f, f.present = true → pyLower (pySuffix f.path) ∉ ALLOWED_EXTENSIONS →
      fileCheck f = some ("不支持的文件类型: " ++ pySuffix f.path)) ∧
    (∀ f, f.present = true → pyLower (pySuffix f.path) ∈ ALLOWED_EXTENSIONS →
      f.size > MAX_FILE_SIZE →
      fileCheck f = some
        ("文件过大: " ++ pyName f.path ++ " (" ++ toString (f.size / 1024 / 1024) ++ "MB)")) := by
  refine ⟨rfl, fun f => ?_, fun fs => ?_, fun pre f post e hpre hf => ?_,
    fun f hp => ?_, fun f hp hext => ?_, fun f hp hext hsz => ?_⟩
  · constructor
    · intro h
      by_cases h1 : f.present = false
      · simp [fileCheck, h1] at h
      · by_cases h2 : pyLower (pySuffix f.path) ∈ ALLOWED_EXTENSIONS
        · by_cases h3 : f.size > MAX_FILE_SIZE
          · simp [fileCheck, h1, h2, h3] at h
          · exact ⟨by simpa using h1, h2, by omega⟩
        · simp [fileCheck, h1, h2] at h
    · rintro ⟨hp, hext, hsz⟩
      simp [fileCheck, hp, hext, Nat.not_lt.mpr hsz]
  · cases fs with
    | nil => simp [validate_image_files]
    | cons f fs => simp [validate_image_files, checkFiles_ok_iff]
  · have hcf := checkFiles_first_error pre f post e hpre hf
    have hne : (pre ++ f :: post).isEmpty = false := by simp
    simp [validate_image_files, hne, hcf]
  · simp [fileCheck, hp]
  · simp [fileCheck, hp, hext]
  · simp [fileCheck, hp, hext, hsz]

theorem validate_image_files_characterization_witness :
    validate_image_files
        [⟨"ok.jpg", true, 100⟩, ⟨"missing.jpg", false, 0⟩, ⟨"later.gif", true, 0⟩]
      = .error ("文件不存在: " ++ "missing.jpg") :=
  validate_image_files_characterization.2.2.2.1
    [⟨"ok.jpg", true, 100⟩] ⟨"missing.jpg", false, 0⟩ [⟨"later.gif", true, 0⟩]
    ("文件不存在: " ++ "missing.jpg")
    (fun g hg => by rcases List.mem_singleton.mp hg with rfl; rfl) rfl

/-- C3 counterexample: two batches whose single offending files are distinct
(`a.gif` and `b.gif`) produce the identical unsupported-extension error
message, which contains neither file's path — so that failure message does
not identify the offending file. -/
theorem validate_extension_message_not_identifying :
    validate_image_files [⟨"a.gif", true, 0⟩] = .error "不支持的文件类型: .gif" ∧
    validate_image_files [⟨"b.gif", true, 0⟩] = .error "不支持的文件类型: .gif" ∧
    ¬ ("a.gif".data <:+: "不支持的文件类型: .gif".data) ∧
    ¬ ("b.gif".data <:+: "不支持的文件类型: .gif".data) :=
  ⟨rfl, rfl, by decide, by decide⟩

theorem getLast?_cons_append_concat {α : Type} (x a : α) (l₁ l₂ : List α) :
    (x :: (l₁ ++ l₂ ++ [a])).getLast? = some a := by
  rw [show x :: (l₁ ++ l₂ ++ [a]) = (x :: (l₁ ++ l₂)) ++ [a] by simp]
  exact List.getLast?_concat _

/-- C4: when the grading call fails — the rubric template is missing, or the
streaming grading request raises at any point, including mid-stream — the run
ends in the failed snapshot and persists nothing: no text file is written and
the history store is untouched. -/
theorem grading_failure_no_persistence (files : List FileInfo) (history : List HistoryEntry)
    (env : Env) (hv : validate_image_files files = .ok ()) (hx : env.extractErr = none)
    (hfail : env.rubricPresent = false ∨ ∃ e, env.rateErr = some e) :
    (full_process files history env).savedTexts = [] ∧
    (full_process files history env).savedRates = [] ∧
    (full_process files history env).savedHistory = none ∧
    ∃ m, (full_process files history env).snapshots.getLast? = some (.error m) := by
  obtain ⟨rub, echunks, eerr, rchunks, rerr, ts, nowm⟩ := env
  simp only at hx
  subst hx
  rcases hfail with hrub | ⟨e, herr⟩
  · simp only at hrub
    subst hrub
    simp only [full_process, hv, stream_extract_text, stream_rate_text]
    exact ⟨rfl, rfl, rfl, "评分模板文件不存在", getLast?_cons_append_concat _ _ _ _⟩
  · simp only at herr
    subst herr
    cases rub with
    | false =>
      simp only [full_process, hv, stream_extract_text, stream_rate_text]
      exact ⟨rfl, rfl, rfl, "评分模板文件不存在", getLast?_cons_append_concat _ _ _ _⟩
    | true =>
      simp only [full_process, hv, stream_extract_text, stream_rate_text]
      exact ⟨rfl, rfl, rfl, e, getLast?_cons_append_concat _ _ _ _⟩

theorem grading_failure_no_persistence_witness :
    (full_process [⟨"a.jpg", true, 10⟩] []
        ⟨true, [some "T\nB"], none, [some "half"], some "boom", "ts", "now"⟩).savedHistory
      = none :=
  (grading_failure_no_persistence [⟨"a.jpg", true, 10⟩] []
    ⟨true, [some "T\nB"], none, [some "half"], some "boom", "ts", "now"⟩
    rfl rfl (Or.inr ⟨"boom", rfl⟩)).2.2.1

/-- C7: whenever validation fails, the run emits only the error snapshot and
issues no chat-completion request at all. -/
theorem validation_failure_no_gateway (files : List FileInfo) (history : List HistoryEntry)
    (env : Env) (e : String) (h : validate_image_files files = .error e) :
    (full_process files history env).gatewayCalls = 0 ∧
    (full_process files history env).snapshots = [.error e] := by
  simp [full_process, h]

theorem validation_failure_no_gateway_witness :
    (full_process [] [] ⟨true, [], none, [], none, "ts", "now"⟩).gatewayCalls = 0 :=
  (validation_failure_no_gateway [] [] ⟨true, [], none, [], none, "ts", "now"⟩
    "未上传任何图片" rfl).1

/-- C8: when the rubric template file is missing, `stream_rate_text` fails
with the configuration error (`FileNotFoundError("评分模板文件不存在")`)
without having issued the grading chat request, whatever the network would
have delivered. -/
theorem missing_rubric_config_error (content : String) (chunks : List (Option String))
    (midErr : Option String) :
    stream_rate_text false content chunks midErr = (false, [], .error "评分模板文件不存在") :=
  rfl

theorem decode_encode_entries (X : List HistoryEntry) :
    decodeEntries (X.map entryToJson) = some X := by
  induction X with
  | nil => rfl
  | cons x xs ih =>
    obtain ⟨t, ts, tp, rp⟩ := x
    have h1 : jsonToEntry (entryToJson ⟨t, ts, tp, rp⟩) = some ⟨t, ts, tp, rp⟩ := rfl
    simp [decodeEntries, h1, ih]

/-- C6: saving a history list and loading it back returns exactly that list
(the loaded JSON value decodes to the saved entries), for any prior state of
the history file. -/
theorem history_save_load_roundtrip (X : List HistoryEntry) (s : HistFileState) :
    jsonToHistory (load_history (save_history (historyToJson X) s)) = some X := by
  show jsonToHistory (historyToJson X) = some X
  simp [historyToJson, jsonToHistory, decode_encode_entries X]

/-- C9: loading history when the file is absent or its contents are
unparseable returns the empty list; `load_history` is a total function, so
the failure is not propagated (the source merely logs it). -/
theorem load_history_missing_or_malformed_empty :
    load_history .absent = .arr [] ∧ load_history .malformed = .arr [] :=
  ⟨rfl, rfl⟩
